import Mathlib

/-!
Shallow embedding of the TP-AW2 e-commerce backend (src/Backend/index.js,
JWT version) and proofs about its handlers.

The server keeps three in-memory collections (products, users, sales),
loaded from JSON files at startup.  Each HTTP handler is embedded as a
pure function from the server state (plus the request data) to the new
server state and a response value.  JavaScript numbers are modelled as
`Int` (all arithmetic in the handlers is integer arithmetic on ids,
stock, price and quantity), strings as `String`.  External effects that
do not influence the collections (file rewrites, JWT signing, bcrypt)
are abstracted: the token produced by `jwt.sign` is an opaque `String`
parameter, `bcrypt.hash` is a `String → String` parameter and
`bcrypt.compare` a `String → String → Bool` parameter, and the per-line
timestamps `new Date().toISOString()` are a `Nat → String` parameter
indexed by how many order lines were already processed.
-/

namespace TPAW

/-- A product record: `{id, name, category, price, stock, image}`. -/
structure Product where
  id : Int
  name : String
  category : String
  price : Int
  stock : Int
  image : String
deriving DecidableEq

/-- A user record: `{id, name, email, password, phone, address, role}`.
The `password` field stores the bcrypt hash. -/
structure User where
  id : Int
  name : String
  email : String
  password : String
  phone : String
  address : String
  role : String
deriving DecidableEq

/-- A sale (order line) record: `{id, userId, productId, quantity, total, date}`. -/
structure Sale where
  id : Int
  userId : Int
  productId : Int
  quantity : Int
  total : Int
  date : String
deriving DecidableEq

/-- One line of an order request body: `{id, quantity}`. -/
structure OrderItem where
  id : Int
  quantity : Int
deriving DecidableEq

/-- The server state: the three in-memory collections. -/
structure St where
  products : List Product
  users : List User
  sales : List Sale
deriving DecidableEq

/-- A user as returned in responses: the stored `User` with the
`password` field removed (`const { password: _, ...userWithoutPassword }`). -/
structure PublicUser where
  id : Int
  name : String
  email : String
  phone : String
  address : String
  role : String
deriving DecidableEq

/-- Drop the password field from a stored user record. -/
def toPublic (u : User) : PublicUser :=
  { id := u.id, name := u.name, email := u.email, phone := u.phone
    address := u.address, role := u.role }

/-- The aggregate order returned by `POST /orders`. -/
structure Order where
  id : Int
  userId : Int
  userName : String
  items : List Sale
  total : Int
  date : String
deriving DecidableEq

/-! ### Catalog reader (GET /products, GET /products/:id, GET /categories) -/

/-- Response of `GET /products/:id`. -/
inductive ProductResp where
  | err (status : Nat) (msg : String)
  | ok (p : Product)
deriving DecidableEq

/-- `GET /products`: returns the whole products collection. -/
def getProducts (st : St) : St × List Product := (st, st.products)

/-- `GET /products/:id`: `products.find(p => p.id == req.params.id)`. -/
def getProduct (st : St) (pid : Int) : St × ProductResp :=
  match st.products.find? (fun p => p.id == pid) with
  | some p => (st, .ok p)
  | none => (st, .err 404 "Producto no encontrado")

/-- One step of building `[...new Set(xs)]`: JavaScript `Set` keeps
insertion order and skips values already present. -/
def insertUniq (acc : List String) (c : String) : List String :=
  if c ∈ acc then acc else acc ++ [c]

/-- `[...new Set(products.map(p => p.category))]`. -/
def categoriesOf (prods : List Product) : List String :=
  (prods.map (fun p => p.category)).foldl insertUniq []

/-- `GET /categories`. -/
def getCategories (st : St) : St × List String := (st, categoriesOf st.products)

/-! ### Order placement (POST /orders, protected version) -/

/-- Response of `POST /orders`: `.created` carries status 201. -/
inductive OrderResp where
  | err (status : Nat) (msg : String)
  | created (o : Order)
deriving DecidableEq

/-- In-place mutation `product.stock -= item.quantity`, where `product`
is the first element of the array with the given id (`products.find`). -/
def decStockFirst : List Product → Int → Int → List Product
  | [], _, _ => []
  | p :: ps, pid, q =>
    if p.id == pid then { p with stock := p.stock - q } :: ps
    else p :: decStockFirst ps pid q

/-- The `for (const item of items)` loop of the `POST /orders` handler.
`base` is `sales.length`, `acc` is the `newSales` array built so far and
`tot` the running `orderTotal`.  Each iteration looks the product up,
returns a 400 error message when it is missing or its stock is below the
requested quantity, and otherwise records the new sale line and
decrements the product's stock in place before the next line is
examined.  The products list is returned in every case because the
in-place decrements survive an early `return`. -/
def processItems (dates : Nat → String) (uid : Int) (base : Nat) :
    List OrderItem → List Product → List Sale → Int →
    List Product × Except String (List Sale × Int)
  | [], prods, acc, tot => (prods, .ok (acc, tot))
  | it :: rest, prods, acc, tot =>
    match prods.find? (fun p => p.id == it.id) with
    | none => (prods, .error ("Producto " ++ toString it.id ++ " no encontrado"))
    | some product =>
      if product.stock < it.quantity then
        (prods, .error ("Stock insuficiente para " ++ product.name ++
          ". Disponible: " ++ toString product.stock))
      else
        let saleTotal := product.price * it.quantity
        let newSale : Sale :=
          { id := Int.ofNat (base + acc.length + 1)
            userId := uid
            productId := product.id
            quantity := it.quantity
            total := saleTotal
            date := dates acc.length }
        processItems dates uid base rest (decStockFirst prods it.id it.quantity)
          (acc ++ [newSale]) (tot + saleTotal)

/-- `POST /orders` (protected): reject an empty cart with 400, resolve
the authenticated user (404 if absent), run the item loop, and on
success append the new sales and answer 201 with the aggregate order
(`newSales[0].id` / `newSales[0].date` as the order id and date).  When
the loop fails, the partially decremented products array is kept (the
JavaScript loop mutated it in place) but no sale is appended.  The
unreachable `newSales = []` success case models the `TypeError` on
`newSales[0].id` being caught by the surrounding `try` as a 500. -/
def createOrder (st : St) (uid : Int) (items : List OrderItem)
    (dates : Nat → String) : St × OrderResp :=
  if items.isEmpty then (st, .err 400 "El carrito está vacío")
  else
    match st.users.find? (fun u => u.id == uid) with
    | none => (st, .err 404 "Usuario no encontrado")
    | some currentUser =>
      match processItems dates currentUser.id st.sales.length items st.products [] 0 with
      | (prods, .error msg) => ({ st with products := prods }, .err 400 msg)
      | (prods, .ok (newSales, orderTotal)) =>
        match newSales with
        | [] => ({ st with products := prods, sales := st.sales ++ newSales },
                 .err 500 "Error al crear la orden")
        | s0 :: _ =>
          ({ st with products := prods, sales := st.sales ++ newSales },
           .created { id := s0.id, userId := currentUser.id,
                      userName := currentUser.name, items := newSales,
                      total := orderTotal, date := s0.date })

/-! ### Identity and access (POST /auth/register, POST /auth/login,
GET /auth/profile, PUT /auth/profile) -/

/-- Response of `POST /auth/register`: `.created` carries status 201. -/
inductive RegResp where
  | err (status : Nat) (msg : String)
  | created (user : PublicUser) (token : String)
deriving DecidableEq

/-- The `newUser` record built by the register handler: sequential id
`users.length + 1`, bcrypt-hashed password, role `customer`.  `phone`
and `address` default to the empty string, which on `String` is exactly
the JavaScript `phone || ''`. -/
def newUserOf (st : St) (hashFn : String → String)
    (name email password phone address : String) : User :=
  { id := Int.ofNat (st.users.length + 1), name := name, email := email
    password := hashFn password, phone := phone, address := address
    role := "customer" }

/-- `POST /auth/register`.  A missing (falsy) field is modelled as the
empty string. -/
def authRegister (st : St) (hashFn : String → String)
    (name email password phone address : String) (token : String) :
    St × RegResp :=
  if name = "" ∨ email = "" ∨ password = "" then
    (st, .err 400 "Nombre, email y contraseña son requeridos")
  else
    match st.users.find? (fun u => u.email == email) with
    | some _ => (st, .err 400 "El email ya está registrado")
    | none =>
      let newUser := newUserOf st hashFn name email password phone address
      ({ st with users := st.users ++ [newUser] },
       .created (toPublic newUser) token)

/-- Response of `POST /auth/login`: `.ok` carries status 200. -/
inductive LoginResp where
  | err (status : Nat) (msg : String)
  | ok (user : PublicUser) (token : String)
deriving DecidableEq

/-- `POST /auth/login`: look the user up by email and compare the
submitted password against the stored hash with `bcrypt.compare`
(abstracted as `cmp`). -/
def authLogin (st : St) (cmp : String → String → Bool)
    (email password token : String) : St × LoginResp :=
  if email = "" ∨ password = "" then
    (st, .err 400 "Email y contraseña son requeridos")
  else
    match st.users.find? (fun u => u.email == email) with
    | none => (st, .err 401 "Credenciales inválidas")
    | some user =>
      if cmp password user.password then (st, .ok (toPublic user) token)
      else (st, .err 401 "Credenciales inválidas")

/-- Response of `GET /auth/profile` and `PUT /auth/profile`. -/
inductive ProfileResp where
  | err (status : Nat) (msg : String)
  | ok (user : PublicUser)
deriving DecidableEq

/-- `GET /auth/profile`: return the authenticated user without the
password field. -/
def getProfile (st : St) (uid : Int) : St × ProfileResp :=
  match st.users.find? (fun u => u.id == uid) with
  | none => (st, .err 404 "Usuario no encontrado")
  | some u => (st, .ok (toPublic u))

/-- The three guarded field assignments of the profile-update handler:
`if (name) users[i].name = name` and likewise for phone and address
(a falsy submitted value, modelled as `""`, leaves the field alone). -/
def applyProfileUpdate (u : User) (name phone address : String) : User :=
  { u with
    name := if name ≠ "" then name else u.name
    phone := if phone ≠ "" then phone else u.phone
    address := if address ≠ "" then address else u.address }

/-- In-place update of `users[userIndex]` where `userIndex` is
`findIndex(u => u.id === userId)`: only the first matching record is
rewritten. -/
def updateUsersProfile : List User → Int → String → String → String → List User
  | [], _, _, _, _ => []
  | u :: us, uid, name, phone, address =>
    if u.id == uid then applyProfileUpdate u name phone address :: us
    else u :: updateUsersProfile us uid name phone address

/-- `PUT /auth/profile`: 404 when the authenticated id is unknown,
otherwise update the found record in place and answer with it, password
stripped. -/
def updateProfile (st : St) (uid : Int) (name phone address : String) :
    St × ProfileResp :=
  match st.users.find? (fun u => u.id == uid) with
  | none => (st, .err 404 "Usuario no encontrado")
  | some u =>
    ({ st with users := updateUsersProfile st.users uid name phone address },
     .ok (toPublic (applyProfileUpdate u name phone address)))

/-! ### Administrative mutations (PUT /products/:id, DELETE /users/:id)
and the unauthenticated `POST /sales` of the first backend version -/

/-- In-place `products[index].price = price` at
`index = findIndex(p => p.id == id)`. -/
def setPriceFirst : List Product → Int → Int → List Product
  | [], _, _ => []
  | p :: ps, pid, price =>
    if p.id == pid then { p with price := price } :: ps
    else p :: setPriceFirst ps pid price

/-- `PUT /products/:id` (admin): update the price of the first product
with the given id, 404 when absent. -/
def updatePrice (st : St) (pid : Int) (price : Int) : St × ProductResp :=
  match st.products.find? (fun p => p.id == pid) with
  | none => (st, .err 404 "Producto no encontrado")
  | some p =>
    ({ st with products := setPriceFirst st.products pid price },
     .ok { p with price := price })

/-- Response of `DELETE /users/:id`. -/
inductive DeleteResp where
  | err (status : Nat) (msg : String)
  | ok (msg : String)
deriving DecidableEq

/-- `users.splice(index, 1)` at `index = findIndex(u => u.id == id)`:
remove the first user with the given id. -/
def eraseFirstUser : List User → Int → List User
  | [], _ => []
  | u :: us, uid => if u.id == uid then us else u :: eraseFirstUser us uid

/-- `DELETE /users/:id` (admin): 400 when any sale references the user,
404 when the user does not exist, otherwise remove it. -/
def deleteUser (st : St) (uid : Int) : St × DeleteResp :=
  if (st.sales.filter (fun s => s.userId == uid)).length > 0 then
    (st, .err 400 "No se puede eliminar el usuario con ventas registradas")
  else
    match st.users.find? (fun u => u.id == uid) with
    | none => (st, .err 404 "Usuario no encontrado")
    | some _ =>
      ({ st with users := eraseFirstUser st.users uid },
       .ok "Usuario eliminado correctamente")

/-- Response of the unauthenticated `POST /sales` of the first backend
version in `index.js`. -/
inductive SaleResp where
  | err (status : Nat) (msg : String)
  | created (s : Sale)
deriving DecidableEq

/-- `POST /sales` (first backend version): record a sale for an existing
user and product, without touching stock. -/
def registerSale (st : St) (userId productId quantity : Int) (date : String) :
    St × SaleResp :=
  match st.users.find? (fun u => u.id == userId),
        st.products.find? (fun p => p.id == productId) with
  | some _, some product =>
    let newSale : Sale :=
      { id := Int.ofNat (st.sales.length + 1), userId := userId
        productId := productId, quantity := quantity
        total := product.price * quantity, date := date }
    ({ st with sales := st.sales ++ [newSale] }, .created newSale)
  | _, _ => (st, .err 400 "Usuario o producto inválido")


/-! ### Helper lemmas about stock decrements -/

/-- `decStockFirst` rewrites the first product with the decremented id
and leaves lookups of every other id alone. -/
theorem find?_decStockFirst (prods : List Product) (i q pid : Int) :
    (decStockFirst prods i q).find? (fun p => p.id == pid) =
      if pid = i then
        (prods.find? (fun p => p.id == pid)).map
          (fun p => { p with stock := p.stock - q })
      else prods.find? (fun p => p.id == pid) := by
  induction prods with
  | nil => by_cases h : pid = i <;> simp [decStockFirst, h]
  | cons p ps ih =>
    by_cases hpi : p.id = i
    · have hdec : decStockFirst (p :: ps) i q = { p with stock := p.stock - q } :: ps := by
        simp [decStockFirst, hpi]
      by_cases hpd : pid = i
      · have hb : (p.id == pid) = true := by simp [hpi, hpd]
        rw [hdec, if_pos hpd]
        simp [List.find?_cons, hb]
      · have hb : (p.id == pid) = false := by
          simp only [beq_eq_false_iff_ne, ne_eq]
          omega
        rw [hdec, if_neg hpd]
        simp [List.find?_cons, hb]
    · have hdec : decStockFirst (p :: ps) i q = p :: decStockFirst ps i q := by
        simp [decStockFirst, hpi]
      rw [hdec]
      by_cases hb : (p.id == pid) = true
      · have hpd : ¬ pid = i := by
          have : p.id = pid := by simpa using hb
          omega
        rw [if_neg hpd]
        simp [List.find?_cons, hb]
      · have hb2 : (p.id == pid) = false := by simpa using hb
        simp only [List.find?_cons, hb2]
        exact ih

/-- The stock of the first product with a given id, as the handlers
read it through `products.find`. -/
def stockOf (prods : List Product) (pid : Int) : Option Int :=
  (prods.find? (fun p => p.id == pid)).map Product.stock

/-- The price of the first product with a given id. -/
def priceOf (prods : List Product) (pid : Int) : Option Int :=
  (prods.find? (fun p => p.id == pid)).map Product.price

theorem stockOf_decStockFirst (prods : List Product) (i q pid : Int) :
    stockOf (decStockFirst prods i q) pid =
      if pid = i then (stockOf prods pid).map (fun s => s - q)
      else stockOf prods pid := by
  simp only [stockOf, find?_decStockFirst]
  by_cases h : pid = i
  · subst h
    cases hf : prods.find? (fun p => p.id == pid) <;> simp [hf]
  · simp [h]

theorem priceOf_decStockFirst (prods : List Product) (i q pid : Int) :
    priceOf (decStockFirst prods i q) pid = priceOf prods pid := by
  simp only [priceOf, find?_decStockFirst]
  by_cases h : pid = i
  · subst h
    cases hf : prods.find? (fun p => p.id == pid) <;> simp [hf]
  · simp [h]

/-- The net effect of the whole order loop on the products array. -/
def applyDecrements : List Product → List OrderItem → List Product
  | prods, [] => prods
  | prods, it :: rest =>
    applyDecrements (decStockFirst prods it.id it.quantity) rest

/-- Total quantity a list of order lines requests for one product id. -/
def sumQty (items : List OrderItem) (pid : Int) : Int :=
  ((items.filter (fun it => it.id == pid)).map OrderItem.quantity).sum

theorem sumQty_nil (pid : Int) : sumQty [] pid = 0 := rfl

theorem sumQty_cons (it : OrderItem) (rest : List OrderItem) (pid : Int) :
    sumQty (it :: rest) pid =
      (if it.id = pid then it.quantity else 0) + sumQty rest pid := by
  by_cases h : it.id = pid <;>
    simp [sumQty, List.filter_cons, h]

theorem sumQty_nonneg (items : List OrderItem) (pid : Int)
    (h : ∀ it ∈ items, 0 ≤ it.quantity) : 0 ≤ sumQty items pid := by
  induction items with
  | nil => simp [sumQty_nil]
  | cons it rest ih =>
    have h1 : 0 ≤ it.quantity := h it (by simp)
    have h2 : 0 ≤ sumQty rest pid := ih (fun x hx => h x (by simp [hx]))
    rw [sumQty_cons]
    by_cases hid : it.id = pid
    · rw [if_pos hid]; omega
    · rw [if_neg hid]; omega

theorem stockOf_applyDecrements (items : List OrderItem)
    (prods : List Product) (pid : Int) :
    stockOf (applyDecrements prods items) pid =
      (stockOf prods pid).map (fun s => s - sumQty items pid) := by
  induction items generalizing prods with
  | nil =>
    cases h : stockOf prods pid <;> simp [applyDecrements, h, sumQty_nil]
  | cons it rest ih =>
    simp only [applyDecrements]
    rw [ih, stockOf_decStockFirst, sumQty_cons]
    by_cases h : pid = it.id
    · rw [if_pos h, if_pos (show it.id = pid by omega)]
      cases hs : stockOf prods pid with
      | none => simp
      | some a => simp; omega
    · rw [if_neg h, if_neg (show ¬ it.id = pid by omega)]
      cases hs : stockOf prods pid with
      | none => simp
      | some a => simp

theorem priceOf_applyDecrements (items : List OrderItem)
    (prods : List Product) (pid : Int) :
    priceOf (applyDecrements prods items) pid = priceOf prods pid := by
  induction items generalizing prods with
  | nil => simp [applyDecrements]
  | cons it rest ih =>
    simp only [applyDecrements]
    rw [ih, priceOf_decStockFirst]


/-! ### Sequential validation of the order loop -/

/-- The per-line check of the order loop: the product exists and its
current stock covers the requested quantity. -/
def lineOkB (prods : List Product) (it : OrderItem) : Bool :=
  match prods.find? (fun p => p.id == it.id) with
  | none => false
  | some p => decide (it.quantity ≤ p.stock)

/-- The whole loop succeeds: each line passes its check against the
stock left over by the decrements of the preceding lines. -/
def seqValid : List Product → List OrderItem → Bool
  | _, [] => true
  | prods, it :: rest =>
    lineOkB prods it && seqValid (decStockFirst prods it.id it.quantity) rest

/-- A line with an unknown product id stays unknown under stock
decrements, so its presence makes sequential validation fail. -/
theorem seqValid_eq_false_of_unknown (items : List OrderItem)
    (prods : List Product) (it : OrderItem) (hmem : it ∈ items)
    (hfind : prods.find? (fun p => p.id == it.id) = none) :
    seqValid prods items = false := by
  induction items generalizing prods with
  | nil => cases hmem
  | cons hd rest ih =>
    rcases List.mem_cons.1 hmem with h | h
    · subst h
      simp [seqValid, lineOkB, hfind]
    · simp only [seqValid, Bool.and_eq_false_iff]
      by_cases hok : lineOkB prods hd = true
      · right
        have hfind2 : (decStockFirst prods hd.id hd.quantity).find?
            (fun p => p.id == it.id) = none := by
          rw [find?_decStockFirst]
          by_cases hsame : it.id = hd.id
          · rw [if_pos hsame, hfind]
            rfl
          · rw [if_neg hsame]
            exact hfind
        exact ih _ h hfind2
      · left
        simpa using hok

/-- Per-line feasibility implies sequential validity: when every line's
product exists, every requested quantity is non-negative and, for each
line, the summed quantity over all lines for that product is within its
initial stock, the loop's sequential checks all pass. -/
theorem seqValid_of_bounds (items : List OrderItem) (prods : List Product)
    (hb : ∀ it ∈ items, ∃ p, prods.find? (fun x => x.id == it.id) = some p ∧
            sumQty items it.id ≤ p.stock)
    (hnn : ∀ it ∈ items, 0 ≤ it.quantity) :
    seqValid prods items = true := by
  induction items generalizing prods with
  | nil => rfl
  | cons it rest ih =>
    obtain ⟨p, hfind, hsum⟩ := hb it (by simp)
    have hqnn : 0 ≤ it.quantity := hnn it (by simp)
    have hrestnn : ∀ x ∈ rest, 0 ≤ x.quantity := fun x hx => hnn x (by simp [hx])
    have hsum_cons := sumQty_cons it rest it.id
    have hrest_sum_nn : 0 ≤ sumQty rest it.id := sumQty_nonneg rest it.id hrestnn
    have hqle : it.quantity ≤ p.stock := by
      rw [sumQty_cons] at hsum
      simp at hsum
      omega
    simp only [seqValid, Bool.and_eq_true]
    refine ⟨by simp [lineOkB, hfind, hqle], ih _ ?_ hrestnn⟩
    intro x hx
    obtain ⟨px, hfx, hsx⟩ := hb x (by simp [hx])
    by_cases hsame : x.id = it.id
    · refine ⟨{ p with stock := p.stock - it.quantity }, ?_, ?_⟩
      · rw [find?_decStockFirst, if_pos hsame, hsame, hfind]
        rfl
      · have hpx : px = p := by
          rw [hsame] at hfx
          rw [hfx] at hfind
          exact Option.some_inj.1 hfind
        rw [sumQty_cons, if_pos (show it.id = x.id by omega)] at hsx
        show sumQty rest x.id ≤ p.stock - it.quantity
        rw [hpx] at hsx
        omega
    · refine ⟨px, ?_, ?_⟩
      · rw [find?_decStockFirst, if_neg hsame]
        exact hfx
      · rw [sumQty_cons] at hsx
        have : ¬ it.id = x.id := by omega
        rw [if_neg this] at hsx
        omega


/-- Inversion of the per-line check. -/
theorem lineOkB_eq_true_iff (prods : List Product) (it : OrderItem) :
    lineOkB prods it = true ↔
      ∃ p, prods.find? (fun x => x.id == it.id) = some p ∧
        it.quantity ≤ p.stock := by
  unfold lineOkB
  cases hf : prods.find? (fun x => x.id == it.id) with
  | none => simp
  | some p => simp

/-- What the k-th sale line built by a successful run of the order loop
looks like: sequential id continuing from `base` after `k0` sibling
lines, the acting user's id, the line's product and quantity, total
`price × quantity` at the product's (unchanged) price, and the k-th
timestamp. -/
def SaleLineSpec (prods : List Product) (uid : Int) (base k0 : Nat)
    (dates : Nat → String) (items : List OrderItem) (ns : List Sale) : Prop :=
  ∀ k, k < items.length →
    ∃ it s pr, items[k]? = some it ∧ ns[k]? = some s ∧
      priceOf prods it.id = some pr ∧
      s.id = Int.ofNat (base + k0 + k + 1) ∧ s.userId = uid ∧
      s.productId = it.id ∧ s.quantity = it.quantity ∧
      s.total = pr * it.quantity ∧ s.date = dates (k0 + k)

/-- Successful run of the order loop: when every line passes its
sequential check, the loop returns the fully decremented products, the
accumulated sales extended by one new line per input line, and the
accumulated total extended by the sum of the new line totals. -/
theorem processItems_ok (dates : Nat → String) (uid : Int) (base : Nat)
    (items : List OrderItem) (prods : List Product) (acc : List Sale)
    (tot : Int) (hv : seqValid prods items = true) :
    ∃ ns, processItems dates uid base items prods acc tot
        = (applyDecrements prods items,
           .ok (acc ++ ns, tot + (ns.map Sale.total).sum)) ∧
      ns.length = items.length ∧
      SaleLineSpec prods uid base acc.length dates items ns := by
  induction items generalizing prods acc tot with
  | nil =>
    refine ⟨[], by simp [processItems, applyDecrements], rfl, ?_⟩
    intro k hk
    simp at hk
  | cons it rest ih =>
    simp only [seqValid, Bool.and_eq_true] at hv
    obtain ⟨hok, hrest⟩ := hv
    obtain ⟨p, hfind, hq⟩ := (lineOkB_eq_true_iff prods it).1 hok
    have hnlt : ¬ p.stock < it.quantity := by omega
    obtain ⟨ns', heq', hlen', hspec'⟩ :=
      ih (decStockFirst prods it.id it.quantity)
        (acc ++ [{ id := Int.ofNat (base + acc.length + 1), userId := uid,
                   productId := p.id, quantity := it.quantity,
                   total := p.price * it.quantity, date := dates acc.length }])
        (tot + p.price * it.quantity) hrest
    refine ⟨{ id := Int.ofNat (base + acc.length + 1), userId := uid,
              productId := p.id, quantity := it.quantity,
              total := p.price * it.quantity,
              date := dates acc.length } :: ns', ?_, by simp [hlen'], ?_⟩
    · have hstep : processItems dates uid base (it :: rest) prods acc tot
          = processItems dates uid base rest
              (decStockFirst prods it.id it.quantity)
              (acc ++ [{ id := Int.ofNat (base + acc.length + 1), userId := uid,
                         productId := p.id, quantity := it.quantity,
                         total := p.price * it.quantity,
                         date := dates acc.length }])
              (tot + p.price * it.quantity) := by
        simp only [processItems, hfind]
        rw [if_neg hnlt]
      rw [hstep, heq']
      show (applyDecrements (decStockFirst prods it.id it.quantity) rest, _)
        = (applyDecrements prods (it :: rest), _)
      simp only [applyDecrements]
      congr 1
      simp [add_assoc]
    · intro k hk
      cases k with
      | zero =>
        refine ⟨it, { id := Int.ofNat (base + acc.length + 1), userId := uid,
                      productId := p.id, quantity := it.quantity,
                      total := p.price * it.quantity, date := dates acc.length },
                p.price, by simp, by simp, by simp [priceOf, hfind], ?_, rfl, ?_,
                rfl, rfl, ?_⟩
        · refine congrArg Int.ofNat ?_
          omega
        · have := List.find?_some hfind
          simpa using this
        · refine congrArg dates ?_
          omega
      | succ k =>
        have hk' : k < rest.length := by simpa using hk
        obtain ⟨itk, sk, prk, hit, hsk, hpr, hid, huid, hprod, hqty, htot, hdate⟩ :=
          hspec' k hk'
        refine ⟨itk, sk, prk, by simpa using hit, by simpa using hsk, ?_, ?_, huid,
          hprod, hqty, htot, ?_⟩
        · rw [priceOf_decStockFirst] at hpr
          exact hpr
        · rw [hid]
          refine congrArg Int.ofNat ?_
          simp
          omega
        · rw [hdate]
          refine congrArg dates ?_
          simp
          omega


/-- Failing run of the order loop: when sequential validation fails,
the loop answers a 400 error message, and the products array it leaves
behind carries the decrements of exactly the lines before the first
failing one (the in-place mutations of the already validated prefix). -/
theorem processItems_err (dates : Nat → String) (uid : Int) (base : Nat)
    (items : List OrderItem) (prods : List Product) (acc : List Sale)
    (tot : Int) (hv : seqValid prods items = false) :
    ∃ k msg, k < items.length ∧ seqValid prods (items.take k) = true ∧
      (∃ it, items[k]? = some it ∧
        lineOkB (applyDecrements prods (items.take k)) it = false) ∧
      processItems dates uid base items prods acc tot
        = (applyDecrements prods (items.take k), .error msg) := by
  induction items generalizing prods acc tot with
  | nil => simp [seqValid] at hv
  | cons it rest ih =>
    simp only [seqValid, Bool.and_eq_false_iff] at hv
    by_cases hok : lineOkB prods it = true
    · have hrest : seqValid (decStockFirst prods it.id it.quantity) rest = false := by
        rcases hv with h | h
        · rw [hok] at h
          cases h
        · exact h
      obtain ⟨p, hfind, hq⟩ := (lineOkB_eq_true_iff prods it).1 hok
      have hnlt : ¬ p.stock < it.quantity := by omega
      obtain ⟨k, msg, hk, htake, hbad, heq⟩ :=
        ih (decStockFirst prods it.id it.quantity)
          (acc ++ [{ id := Int.ofNat (base + acc.length + 1), userId := uid,
                     productId := p.id, quantity := it.quantity,
                     total := p.price * it.quantity, date := dates acc.length }])
          (tot + p.price * it.quantity) hrest
      refine ⟨k + 1, msg, by simpa using hk, ?_, ?_, ?_⟩
      · show seqValid prods (it :: rest.take k) = true
        simp only [seqValid, Bool.and_eq_true]
        exact ⟨hok, htake⟩
      · obtain ⟨itb, hitb, hbadb⟩ := hbad
        exact ⟨itb, by simpa using hitb, hbadb⟩
      · have hstep : processItems dates uid base (it :: rest) prods acc tot
            = processItems dates uid base rest
                (decStockFirst prods it.id it.quantity)
                (acc ++ [{ id := Int.ofNat (base + acc.length + 1), userId := uid,
                           productId := p.id, quantity := it.quantity,
                           total := p.price * it.quantity,
                           date := dates acc.length }])
                (tot + p.price * it.quantity) := by
          simp only [processItems, hfind]
          rw [if_neg hnlt]
        rw [hstep, heq]
        rfl
    · have hok' : lineOkB prods it = false := by simpa using hok
      have hbad : lineOkB (applyDecrements prods (List.take 0 (it :: rest))) it
          = false := by
        simpa [applyDecrements] using hok'
      refine ⟨0, ?_⟩
      have htake : seqValid prods ((it :: rest).take 0) = true := rfl
      cases hfind : prods.find? (fun x => x.id == it.id) with
      | none =>
        refine ⟨"Producto " ++ toString it.id ++ " no encontrado",
          by simp, htake, ⟨it, by simp, hbad⟩, ?_⟩
        simp only [processItems, hfind]
        rfl
      | some p =>
        have hlt : p.stock < it.quantity := by
          by_contra hc
          have : lineOkB prods it = true := by
            simp only [lineOkB, hfind, decide_eq_true_eq]
            omega
          rw [this] at hok'
          cases hok'
        refine ⟨"Stock insuficiente para " ++ p.name ++
            ". Disponible: " ++ toString p.stock,
          by simp, htake, ⟨it, by simp, hbad⟩, ?_⟩
        simp only [processItems, hfind]
        rw [if_pos hlt]
        rfl

/-- Stocks stay non-negative under the in-place decrement, because each
decrement is guarded by the stock check on the same (first-matching)
product that `products.find` returned. -/
theorem decStockFirst_nonneg (prods : List Product) (i q : Int)
    (p : Product) (hfind : prods.find? (fun x => x.id == i) = some p)
    (hq : q ≤ p.stock) (hnn : ∀ x ∈ prods, 0 ≤ x.stock) :
    ∀ x ∈ decStockFirst prods i q, 0 ≤ x.stock := by
  induction prods with
  | nil => simp [decStockFirst]
  | cons hd tl ih =>
    by_cases hhd : hd.id = i
    · have hb : (hd.id == i) = true := by simp [hhd]
      have hphd : p = hd := by
        simp only [List.find?_cons, hb, Option.some.injEq] at hfind
        exact hfind.symm
      simp only [decStockFirst, hb, if_true]
      intro x hx
      rcases List.mem_cons.1 hx with h | h
      · subst h
        subst hphd
        show 0 ≤ p.stock - q
        omega
      · exact hnn x (by simp [h])
    · have hb : (hd.id == i) = false := by simp [hhd]
      simp only [List.find?_cons, hb] at hfind
      simp only [decStockFirst, hb, if_false]
      intro x hx
      rcases List.mem_cons.1 hx with h | h
      · subst h
        exact hnn x (by simp)
      · exact ih hfind (fun y hy => hnn y (by simp [hy])) x h

/-- The order loop never drives a stock negative: every product in the
array it returns — after success or after a mid-loop failure — still
has non-negative stock when all stocks were non-negative on entry. -/
theorem processItems_nonneg (dates : Nat → String) (uid : Int) (base : Nat)
    (items : List OrderItem) (prods : List Product) (acc : List Sale)
    (tot : Int) (hnn : ∀ x ∈ prods, 0 ≤ x.stock) :
    ∀ x ∈ (processItems dates uid base items prods acc tot).1, 0 ≤ x.stock := by
  induction items generalizing prods acc tot with
  | nil => simpa [processItems] using hnn
  | cons it rest ih =>
    cases hfind : prods.find? (fun x => x.id == it.id) with
    | none =>
      simp only [processItems, hfind]
      exact hnn
    | some p =>
      by_cases hlt : p.stock < it.quantity
      · simp only [processItems, hfind]
        rw [if_pos hlt]
        exact hnn
      · simp only [processItems, hfind]
        rw [if_neg hlt]
        exact ih _ _ _ (decStockFirst_nonneg prods it.id it.quantity p hfind
          (by omega) hnn)


/-! ### Concrete demonstration states -/

/-- A one-product catalog: id 1, price 100, stock 3. -/
def demoProducts : List Product := [⟨1, "A", "cat", 100, 3, "img"⟩]

/-- A single registered customer with id 7. -/
def demoUsers : List User := [⟨7, "Bob", "bob@mail", "h", "", "", "customer"⟩]

/-- Demo state with no recorded sales. -/
def demoSt : St := ⟨demoProducts, demoUsers, []⟩

/-- Demo state with two products and one recorded sale. -/
def demoSt2 : St :=
  ⟨[⟨1, "A", "cat", 100, 3, "img"⟩, ⟨2, "B", "cat2", 50, 5, "img2"⟩],
   demoUsers, [⟨1, 7, 1, 1, 100, "x"⟩]⟩

/-! ### C1: behaviour of POST /orders on a failing line -/

/-- C1 (counterexample): the claim says a request containing a line with
an unknown product id leaves every product's stock unchanged.  For the
order `[{id 1, qty 2}, {id 99, qty 1}]` against the demo catalog the
request is rejected with 400 (id 99 is unknown) and no sale is
appended, but the products collection is NOT unchanged: the first
line's decrement (stock 3 → 1) had already been applied in place when
the second line failed. -/
theorem C1_counterexample :
    demoSt.products.find? (fun p => p.id == (99 : Int)) = none ∧
    (createOrder demoSt 7 [⟨1, 2⟩, ⟨99, 1⟩] (fun _ => "d")).2
        = OrderResp.err 400 "Producto 99 no encontrado" ∧
    (createOrder demoSt 7 [⟨1, 2⟩, ⟨99, 1⟩] (fun _ => "d")).1.products
        ≠ demoSt.products ∧
    (createOrder demoSt 7 [⟨1, 2⟩, ⟨99, 1⟩] (fun _ => "d")).1.sales
        = demoSt.sales := by
  decide

/-- What actually holds when an order fails: 400 response, the sales
and users collections unchanged, and the products collection equal to
the original with the decrements of exactly the lines before the first
failing line applied (so it is unchanged only when the first failing
line is the first line). -/
def OrderFailSpec (st : St) (items : List OrderItem) (r : St × OrderResp) : Prop :=
  (∃ msg, r.2 = OrderResp.err 400 msg) ∧
  r.1.sales = st.sales ∧ r.1.users = st.users ∧
  ∃ k, k < items.length ∧ seqValid st.products (items.take k) = true ∧
    (∃ it, items[k]? = some it ∧
      lineOkB (applyDecrements st.products (items.take k)) it = false) ∧
    r.1.products = applyDecrements st.products (items.take k)

/-- C1 (amended): an order containing a line with an unknown product id
always fails sequential validation, and any order failing sequential
validation (unknown id, or quantity above the stock remaining at that
line) is rejected with 400 with the sales collection left entirely
unchanged — but the products collection keeps the in-place decrements
of the valid lines processed before the first failing one, because the
loop mutates stock while it validates rather than validating all lines
first. -/
theorem C1_order_failure (st : St) (uid : Int) (items : List OrderItem)
    (dates : Nat → String) (hne : items ≠ [])
    (huser : (st.users.find? (fun u => u.id == uid)).isSome = true) :
    ((∃ it ∈ items, st.products.find? (fun p => p.id == it.id) = none) →
      seqValid st.products items = false) ∧
    (seqValid st.products items = false →
      OrderFailSpec st items (createOrder st uid items dates)) := by
  constructor
  · rintro ⟨it, hmem, hfind⟩
    exact seqValid_eq_false_of_unknown items st.products it hmem hfind
  · intro hv
    obtain ⟨u, hu⟩ := Option.isSome_iff_exists.1 huser
    obtain ⟨k, msg, hk, htake, hbad, heq⟩ :=
      processItems_err dates u.id st.sales.length items st.products [] 0 hv
    have hempty : items.isEmpty = false := by
      cases items with
      | nil => cases hne rfl
      | cons a l => rfl
    have hco : createOrder st uid items dates
        = ({ st with products := applyDecrements st.products (items.take k) },
           OrderResp.err 400 msg) := by
      unfold createOrder
      rw [hempty]
      simp only [Bool.false_eq_true, if_false, hu, heq]
    exact ⟨⟨msg, by rw [hco]⟩, by rw [hco], by rw [hco], k, hk, htake, hbad,
      by rw [hco]⟩

/-- C1 (witness): the amended theorem applied to the counterexample
order. -/
theorem C1_order_failure_witness :
    ([⟨1, 2⟩, ⟨99, 1⟩] : List OrderItem) ≠ [] ∧
    (demoSt.users.find? (fun u => u.id == (7 : Int))).isSome = true ∧
    seqValid demoSt.products [⟨1, 2⟩, ⟨99, 1⟩] = false ∧
    OrderFailSpec demoSt [⟨1, 2⟩, ⟨99, 1⟩]
      (createOrder demoSt 7 [⟨1, 2⟩, ⟨99, 1⟩] (fun _ => "d")) :=
  ⟨by decide, by decide, by decide,
   (C1_order_failure demoSt 7 [⟨1, 2⟩, ⟨99, 1⟩] (fun _ => "d") (by decide)
      (by decide)).2 (by decide)⟩


/-! ### C3: stock non-negativity across the mutating handlers -/

/-- Every product's stock is non-negative. -/
def StocksNonneg (prods : List Product) : Prop := ∀ p ∈ prods, 0 ≤ p.stock

/-- Successful order: full characterization of `createOrder` when the
cart is non-empty, the user resolves and every line validates in
sequence. -/
theorem createOrder_ok (st : St) (uid : Int) (items : List OrderItem)
    (dates : Nat → String) (cu : User)
    (hu : st.users.find? (fun u => u.id == uid) = some cu)
    (hne : items ≠ [])
    (hv : seqValid st.products items = true) :
    ∃ s0 tl, (s0 :: tl).length = items.length ∧
      SaleLineSpec st.products cu.id st.sales.length 0 dates items (s0 :: tl) ∧
      createOrder st uid items dates
        = ({ st with products := applyDecrements st.products items,
                     sales := st.sales ++ s0 :: tl },
           OrderResp.created
             { id := s0.id, userId := cu.id, userName := cu.name,
               items := s0 :: tl, total := ((s0 :: tl).map Sale.total).sum,
               date := s0.date }) := by
  obtain ⟨ns, heq, hlen, hspec⟩ :=
    processItems_ok dates cu.id st.sales.length items st.products [] 0 hv
  have hempty : items.isEmpty = false := by
    cases items with
    | nil => cases hne rfl
    | cons a l => rfl
  cases ns with
  | nil =>
    exfalso
    cases items with
    | nil => exact hne rfl
    | cons a l => simp at hlen
  | cons s0 tl =>
    refine ⟨s0, tl, hlen, hspec, ?_⟩
    unfold createOrder
    rw [hempty]
    simp only [Bool.false_eq_true, if_false, hu, heq, List.nil_append]
    simp [zero_add]

theorem createOrder_nonneg (st : St) (uid : Int) (items : List OrderItem)
    (dates : Nat → String) (hnn : StocksNonneg st.products) :
    StocksNonneg (createOrder st uid items dates).1.products := by
  by_cases he : items.isEmpty
  · unfold createOrder
    rw [if_pos he]
    exact hnn
  · have hne : items ≠ [] := by
      cases items with
      | nil => simp at he
      | cons a l => simp
    have hempty : items.isEmpty = false := by
      cases items with
      | nil => cases hne rfl
      | cons a l => rfl
    cases hu : st.users.find? (fun u => u.id == uid) with
    | none =>
      unfold createOrder
      rw [if_neg he]
      simp only [hu]
      exact hnn
    | some cu =>
      have hpi := processItems_nonneg dates cu.id st.sales.length items
        st.products [] 0 hnn
      by_cases hv : seqValid st.products items = true
      · obtain ⟨s0, tl, hlen, hspec, hco⟩ :=
          createOrder_ok st uid items dates cu hu hne hv
        rw [hco]
        obtain ⟨ns, heq, hl2, hs2⟩ :=
          processItems_ok dates cu.id st.sales.length items st.products [] 0 hv
        rw [heq] at hpi
        exact hpi
      · have hv2 : seqValid st.products items = false := by
          cases hsv : seqValid st.products items
          · rfl
          · exact absurd hsv hv
        obtain ⟨k, msg, hk, htake, hbad, heq⟩ :=
          processItems_err dates cu.id st.sales.length items st.products [] 0 hv2
        rw [heq] at hpi
        have hco : createOrder st uid items dates
            = ({ st with products := applyDecrements st.products (items.take k) },
               OrderResp.err 400 msg) := by
          unfold createOrder
          rw [hempty]
          simp only [Bool.false_eq_true, if_false, hu, heq]
        rw [hco]
        exact hpi

theorem registerSale_products (st : St) (suid spid sq : Int) (sdate : String) :
    (registerSale st suid spid sq sdate).1.products = st.products := by
  unfold registerSale
  cases st.users.find? (fun u => u.id == suid) with
  | none => rfl
  | some u =>
    cases st.products.find? (fun p => p.id == spid) with
    | none => rfl
    | some p => rfl

theorem setPriceFirst_stocks (prods : List Product) (pid price : Int)
    (hnn : StocksNonneg prods) : StocksNonneg (setPriceFirst prods pid price) := by
  induction prods with
  | nil => simpa [setPriceFirst] using hnn
  | cons p ps ih =>
    by_cases hb : (p.id == pid) = true
    · simp only [setPriceFirst, hb, if_true]
      intro x hx
      rcases List.mem_cons.1 hx with h | h
      · subst h
        exact hnn p (by simp)
      · exact hnn x (by simp [h])
    · have hb2 : (p.id == pid) = false := by simpa using hb
      simp only [setPriceFirst, hb2, if_false]
      intro x hx
      rcases List.mem_cons.1 hx with h | h
      · subst h
        exact hnn x (by simp)
      · exact ih (fun y hy => hnn y (by simp [hy])) x h

theorem updatePrice_nonneg (st : St) (pid price : Int)
    (hnn : StocksNonneg st.products) :
    StocksNonneg (updatePrice st pid price).1.products := by
  unfold updatePrice
  cases st.products.find? (fun p => p.id == pid) with
  | none => exact hnn
  | some p => exact setPriceFirst_stocks st.products pid price hnn

theorem deleteUser_products (st : St) (duid : Int) :
    (deleteUser st duid).1.products = st.products := by
  unfold deleteUser
  by_cases hs : (st.sales.filter (fun s => s.userId == duid)).length > 0
  · rw [if_pos hs]
  · rw [if_neg hs]
    cases st.users.find? (fun u => u.id == duid) with
    | none => rfl
    | some u => rfl

theorem authRegister_products (st : St) (hashFn : String → String)
    (name email password phone address token : String) :
    (authRegister st hashFn name email password phone address token).1.products
      = st.products := by
  unfold authRegister
  by_cases hm : name = "" ∨ email = "" ∨ password = ""
  · rw [if_pos hm]
  · rw [if_neg hm]
    cases st.users.find? (fun u => u.email == email) with
    | none => rfl
    | some u => rfl

theorem updateProfile_products (st : St) (puid : Int)
    (name phone address : String) :
    (updateProfile st puid name phone address).1.products = st.products := by
  unfold updateProfile
  cases st.users.find? (fun u => u.id == puid) with
  | none => rfl
  | some u => rfl

/-- C3: every mutating request — order placement (both its success and
its failure paths), sale registration, price update, user deletion,
registration and profile update — preserves non-negativity of every
product's stock: the only stock decrement in the code is guarded by the
check `product.stock < item.quantity` on the same product. -/
theorem C3_stock_never_negative (st : St) (uid : Int) (items : List OrderItem)
    (dates : Nat → String) (suid spid sq : Int) (sdate : String)
    (ppid pprice duid : Int) (hashFn : String → String)
    (rname remail rpw rphone raddr rtok : String)
    (puid : Int) (uname uphone uaddr : String)
    (hnn : StocksNonneg st.products) :
    StocksNonneg (createOrder st uid items dates).1.products ∧
    StocksNonneg (registerSale st suid spid sq sdate).1.products ∧
    StocksNonneg (updatePrice st ppid pprice).1.products ∧
    StocksNonneg (deleteUser st duid).1.products ∧
    StocksNonneg (authRegister st hashFn rname remail rpw rphone raddr rtok).1.products ∧
    StocksNonneg (updateProfile st puid uname uphone uaddr).1.products := by
  refine ⟨createOrder_nonneg st uid items dates hnn, ?_, ?_, ?_, ?_, ?_⟩
  · rw [registerSale_products]
    exact hnn
  · exact updatePrice_nonneg st ppid pprice hnn
  · rw [deleteUser_products]
    exact hnn
  · rw [authRegister_products]
    exact hnn
  · rw [updateProfile_products]
    exact hnn

/-- C3 (witness): the invariant at the demo state, for an order that
decrements stock and for a price update. -/
theorem C3_stock_never_negative_witness :
    StocksNonneg demoSt.products ∧
    StocksNonneg (createOrder demoSt 7 [⟨1, 2⟩] (fun _ => "d")).1.products ∧
    StocksNonneg (updatePrice demoSt 1 120).1.products :=
  ⟨by unfold StocksNonneg; decide,
   (C3_stock_never_negative demoSt 7 [⟨1, 2⟩] (fun _ => "d") 7 1 1 "d" 1 120 7
      (fun s => s) "n" "e" "p" "" "" "t" 7 "n" "" ""
      (by unfold StocksNonneg; decide)).1,
   (C3_stock_never_negative demoSt 7 [⟨1, 2⟩] (fun _ => "d") 7 1 1 "d" 1 120 7
      (fun s => s) "n" "e" "p" "" "" "t" 7 "n" "" ""
      (by unfold StocksNonneg; decide)).2.2.1⟩


/-! ### C2: valid multi-line orders -/

/-- What the response and state of a successful order look like:
201-created with the order aggregate, users untouched, exactly one sale
appended per input line (in order, with the line's product, quantity and
total `price × quantity`), every product's stock decreased by exactly
the summed ordered quantity, and the reported total equal to the sum of
the per-line totals. -/
def OrderSuccessSpec (st : St) (items : List OrderItem)
    (r : St × OrderResp) : Prop :=
  ∃ o, r.2 = OrderResp.created o ∧
    r.1.users = st.users ∧
    r.1.sales = st.sales ++ o.items ∧
    o.items.length = items.length ∧
    (∀ k, k < items.length → ∃ it s pr, items[k]? = some it ∧
      o.items[k]? = some s ∧ priceOf st.products it.id = some pr ∧
      s.productId = it.id ∧ s.quantity = it.quantity ∧
      s.total = pr * it.quantity) ∧
    (∀ pid, stockOf r.1.products pid
        = (stockOf st.products pid).map (fun x => x - sumQty items pid)) ∧
    o.total = (o.items.map Sale.total).sum

/-- C2: a non-empty order by a resolvable user in which every line's
product exists, every quantity is non-negative and each product's
summed ordered quantity is within its current stock succeeds and
satisfies `OrderSuccessSpec`: per-product stock decremented by exactly
the ordered quantity, one sale per line, and the response total is the
sum of the line totals. -/
theorem C2_valid_order (st : St) (uid : Int) (items : List OrderItem)
    (dates : Nat → String)
    (hne : items ≠ [])
    (huser : (st.users.find? (fun u => u.id == uid)).isSome = true)
    (hfound : ∀ it ∈ items, (st.products.find? (fun x => x.id == it.id)).isSome = true)
    (hqnn : ∀ it ∈ items, 0 ≤ it.quantity)
    (hsum : ∀ it ∈ items, sumQty items it.id ≤ (stockOf st.products it.id).getD 0) :
    OrderSuccessSpec st items (createOrder st uid items dates) := by
  have hb : ∀ it ∈ items, ∃ p, st.products.find? (fun x => x.id == it.id) = some p ∧
      sumQty items it.id ≤ p.stock := by
    intro it hmem
    obtain ⟨p, hp⟩ := Option.isSome_iff_exists.1 (hfound it hmem)
    refine ⟨p, hp, ?_⟩
    have := hsum it hmem
    rw [stockOf, hp] at this
    simpa using this
  have hv : seqValid st.products items = true :=
    seqValid_of_bounds items st.products hb hqnn
  obtain ⟨u, hu⟩ := Option.isSome_iff_exists.1 huser
  obtain ⟨s0, tl, hlen, hspec, hco⟩ :=
    createOrder_ok st uid items dates u hu hne hv
  refine ⟨{ id := s0.id, userId := u.id, userName := u.name, items := s0 :: tl,
            total := ((s0 :: tl).map Sale.total).sum, date := s0.date },
          by rw [hco], by rw [hco], by rw [hco], hlen, ?_, ?_, rfl⟩
  · intro k hk
    obtain ⟨it, sl, pr, hit, hsl, hpr, hid, huid2, hprod, hqty, htot, hdate⟩ :=
      hspec k hk
    exact ⟨it, sl, pr, hit, hsl, hpr, hprod, hqty, htot⟩
  · intro pid
    rw [hco]
    exact stockOf_applyDecrements items st.products pid

/-- C2 (witness): the order `[{id 1, qty 2}, {id 2, qty 3}]` against the
two-product demo state satisfies every hypothesis and hence the success
specification. -/
theorem C2_valid_order_witness :
    (([⟨1, 2⟩, ⟨2, 3⟩] : List OrderItem) ≠ []) ∧
    (demoSt2.users.find? (fun u => u.id == (7 : Int))).isSome = true ∧
    (∀ it ∈ ([⟨1, 2⟩, ⟨2, 3⟩] : List OrderItem),
      (demoSt2.products.find? (fun x => x.id == it.id)).isSome = true) ∧
    (∀ it ∈ ([⟨1, 2⟩, ⟨2, 3⟩] : List OrderItem), 0 ≤ it.quantity) ∧
    (∀ it ∈ ([⟨1, 2⟩, ⟨2, 3⟩] : List OrderItem),
      sumQty [⟨1, 2⟩, ⟨2, 3⟩] it.id ≤ (stockOf demoSt2.products it.id).getD 0) ∧
    OrderSuccessSpec demoSt2 [⟨1, 2⟩, ⟨2, 3⟩]
      (createOrder demoSt2 7 [⟨1, 2⟩, ⟨2, 3⟩] (fun _ => "d")) :=
  ⟨by decide, by decide, by decide, by decide, by decide,
   C2_valid_order demoSt2 7 [⟨1, 2⟩, ⟨2, 3⟩] (fun _ => "d") (by decide)
     (by decide) (by decide) (by decide) (by decide)⟩

/-! ### C4: sale id assignment within an order -/

/-- Id/date bookkeeping of a successful order: one sale per line, the
k-th created line carries id `base + k + 1` (continuing from the `base`
sales already recorded), all ids within the order are pairwise
distinct, and the order's id and date are the first line's. -/
def OrderIdSpec (base : Nat) (items : List OrderItem) (o : Order) : Prop :=
  o.items.length = items.length ∧
  (∀ k, k < o.items.length → ∃ s, o.items[k]? = some s ∧
    s.id = Int.ofNat (base + k + 1)) ∧
  (∀ j k, j < o.items.length → k < o.items.length → j ≠ k →
    ∀ sj sk, o.items[j]? = some sj → o.items[k]? = some sk → sj.id ≠ sk.id) ∧
  (∃ s0, o.items[0]? = some s0 ∧ o.id = s0.id ∧ o.date = s0.date)

/-- C4: every successful order satisfies `OrderIdSpec`: the i-th
created sale line gets id `sales.length + i + 1`, ids within the order
are pairwise distinct, and the response's order id and date are the
first created line's id and date. -/
theorem C4_sale_ids (st : St) (uid : Int) (items : List OrderItem)
    (dates : Nat → String) (o : Order)
    (hsucc : (createOrder st uid items dates).2 = OrderResp.created o) :
    OrderIdSpec st.sales.length items o := by
  by_cases he : items.isEmpty
  · have hco : createOrder st uid items dates
        = (st, OrderResp.err 400 "El carrito está vacío") := by
      unfold createOrder
      rw [if_pos he]
    rw [hco] at hsucc
    simp at hsucc
  · have hne : items ≠ [] := by
      cases items with
      | nil => simp at he
      | cons a l => simp
    have hempty : items.isEmpty = false := by
      cases items with
      | nil => cases hne rfl
      | cons a l => rfl
    cases hu : st.users.find? (fun u => u.id == uid) with
    | none =>
      have hco : createOrder st uid items dates
          = (st, OrderResp.err 404 "Usuario no encontrado") := by
        unfold createOrder
        rw [hempty]
        simp only [Bool.false_eq_true, if_false, hu]
      rw [hco] at hsucc
      simp at hsucc
    | some cu =>
      by_cases hv : seqValid st.products items = true
      · obtain ⟨s0, tl, hlen, hspec, hco⟩ :=
          createOrder_ok st uid items dates cu hu hne hv
        rw [hco] at hsucc
        have h2 : OrderResp.created
            { id := s0.id, userId := cu.id, userName := cu.name,
              items := s0 :: tl, total := ((s0 :: tl).map Sale.total).sum,
              date := s0.date } = OrderResp.created o := hsucc
        have ho : ({ id := s0.id, userId := cu.id, userName := cu.name,
                     items := s0 :: tl,
                     total := ((s0 :: tl).map Sale.total).sum,
                     date := s0.date } : Order) = o := by
          injection h2
        subst ho
        refine ⟨hlen, ?_, ?_, ⟨s0, by simp, rfl, rfl⟩⟩
        · intro k hk
          have hk' : k < items.length := by
            rw [← hlen]
            exact hk
          obtain ⟨it, sl, pr, hit, hsl, hpr, hid, h5, h6, h7, h8, h9⟩ :=
            hspec k hk'
          refine ⟨sl, hsl, ?_⟩
          rw [hid]
          exact congrArg Int.ofNat (by omega)
        · intro j k hj hk hjk sj sk hsj hsk
          have hj' : j < items.length := by
            rw [← hlen]
            exact hj
          have hk' : k < items.length := by
            rw [← hlen]
            exact hk
          obtain ⟨itj, slj, prj, hitj, hslj, hprj, hidj, _, _, _, _, _⟩ :=
            hspec j hj'
          obtain ⟨itk, slk, prk, hitk, hslk, hprk, hidk, _, _, _, _, _⟩ :=
            hspec k hk'
          have hsj2 : (s0 :: tl)[j]? = some sj := hsj
          have hsk2 : (s0 :: tl)[k]? = some sk := hsk
          rw [hslj] at hsj2
          rw [hslk] at hsk2
          have hej : sj = slj := (Option.some_inj.1 hsj2).symm
          have hek : sk = slk := (Option.some_inj.1 hsk2).symm
          subst hej
          subst hek
          rw [hidj, hidk]
          intro hcontra
          apply hjk
          have := Int.ofNat.inj hcontra
          omega
      · have hv2 : seqValid st.products items = false := by
          cases hsv : seqValid st.products items
          · rfl
          · exact absurd hsv hv
        obtain ⟨k, msg, hk, htake, hbad, heq⟩ :=
          processItems_err dates cu.id st.sales.length items st.products [] 0 hv2
        have hco : createOrder st uid items dates
            = ({ st with products := applyDecrements st.products (items.take k) },
               OrderResp.err 400 msg) := by
          unfold createOrder
          rw [hempty]
          simp only [Bool.false_eq_true, if_false, hu, heq]
        rw [hco] at hsucc
        simp at hsucc

/-- C4 (witness): the concrete successful two-line order against the
demo state with one pre-existing sale (so ids continue at 2 and 3). -/
theorem C4_sale_ids_witness :
    (createOrder demoSt2 7 [⟨1, 2⟩, ⟨2, 3⟩] (fun _ => "d")).2
        = OrderResp.created
            { id := 2, userId := 7, userName := "Bob",
              items := [⟨2, 7, 1, 2, 200, "d"⟩, ⟨3, 7, 2, 3, 150, "d"⟩],
              total := 350, date := "d" } ∧
    OrderIdSpec 1 [⟨1, 2⟩, ⟨2, 3⟩]
      { id := 2, userId := 7, userName := "Bob",
        items := [⟨2, 7, 1, 2, 200, "d"⟩, ⟨3, 7, 2, 3, 150, "d"⟩],
        total := 350, date := "d" } :=
  ⟨by decide,
   C4_sale_ids demoSt2 7 [⟨1, 2⟩, ⟨2, 3⟩] (fun _ => "d") _ (by decide)⟩


/-! ### C5: registration with a duplicate email -/

/-- C5 (counterexample): the claim says a registration whose email is
already taken always fails with the duplicate-email error.  But the
required-fields check runs first: with an empty name and the duplicate
email `bob@mail`, the handler answers the missing-fields 400, not the
duplicate-email 400 (the users collection is still unchanged). -/
theorem C5_counterexample :
    (∃ u ∈ demoSt.users, u.email = "bob@mail") ∧
    (authRegister demoSt (fun s => s) "" "bob@mail" "pw" "" "" "t").2
        = RegResp.err 400 "Nombre, email y contraseña son requeridos" ∧
    (authRegister demoSt (fun s => s) "" "bob@mail" "pw" "" "" "t").2
        ≠ RegResp.err 400 "El email ya está registrado" ∧
    (authRegister demoSt (fun s => s) "" "bob@mail" "pw" "" "" "t").1
        = demoSt := by
  decide

/-- C5 (amended): a registration whose email equals an existing user's
email always fails with some 400 error and leaves the state (hence the
users collection) unchanged; when the required fields name and password
are present (and the email is non-empty, as it must be to equal a
stored one and pass the falsy check), the failure is specifically the
duplicate-email error. -/
theorem C5_duplicate_email (st : St) (hashFn : String → String)
    (name email password phone address token : String)
    (hdup : ∃ u ∈ st.users, u.email = email) :
    ((authRegister st hashFn name email password phone address token).1 = st ∧
     ∃ msg, (authRegister st hashFn name email password phone address token).2
         = RegResp.err 400 msg) ∧
    (name ≠ "" → password ≠ "" → email ≠ "" →
      authRegister st hashFn name email password phone address token
        = (st, RegResp.err 400 "El email ya está registrado")) := by
  obtain ⟨w, hw, hwe⟩ := hdup
  have hfind : ∃ u, st.users.find? (fun u2 => u2.email == email) = some u := by
    cases hf : st.users.find? (fun u2 => u2.email == email) with
    | some u => exact ⟨u, rfl⟩
    | none =>
      exfalso
      have := List.find?_eq_none.1 hf w hw
      simp [hwe] at this
  obtain ⟨u, hu⟩ := hfind
  constructor
  · by_cases hm : name = "" ∨ email = "" ∨ password = ""
    · have hco : authRegister st hashFn name email password phone address token
          = (st, RegResp.err 400 "Nombre, email y contraseña son requeridos") := by
        unfold authRegister
        rw [if_pos hm]
      rw [hco]
      exact ⟨rfl, "Nombre, email y contraseña son requeridos", rfl⟩
    · have hco : authRegister st hashFn name email password phone address token
          = (st, RegResp.err 400 "El email ya está registrado") := by
        unfold authRegister
        rw [if_neg hm]
        simp only [hu]
      rw [hco]
      exact ⟨rfl, "El email ya está registrado", rfl⟩
  · intro hn hp he
    have hm : ¬ (name = "" ∨ email = "" ∨ password = "") := by
      intro h
      rcases h with h | h | h
      · exact hn h
      · exact he h
      · exact hp h
    unfold authRegister
    rw [if_neg hm]
    simp only [hu]

/-- C5 (witness): the amended theorem at a complete registration
request whose email is Bob's. -/
theorem C5_duplicate_email_witness :
    (∃ u ∈ demoSt.users, u.email = "bob@mail") ∧
    authRegister demoSt (fun s => s) "Eve" "bob@mail" "pw" "" "" "t"
      = (demoSt, RegResp.err 400 "El email ya está registrado") :=
  ⟨by decide,
   (C5_duplicate_email demoSt (fun s => s) "Eve" "bob@mail" "pw" "" "" "t"
      (by decide)).2 (by decide) (by decide) (by decide)⟩

/-! ### C6: login failures are indistinguishable -/

/-- C6: for a login with both fields present, an unknown email and a
failed hash comparison produce the identical response — status 401,
message `Credenciales inválidas`, state unchanged — and when the email
resolves, success is exactly `bcrypt.compare(password, storedHash)`:
the outcome is a function of the stored hash and submitted password
only. -/
theorem C6_login_indistinguishable (st : St) (cmp : String → String → Bool)
    (email password token : String) (he : email ≠ "") (hp : password ≠ "") :
    (st.users.find? (fun u => u.email == email) = none →
      authLogin st cmp email password token
        = (st, LoginResp.err 401 "Credenciales inválidas")) ∧
    (∀ u, st.users.find? (fun u2 => u2.email == email) = some u →
      (cmp password u.password = false →
        authLogin st cmp email password token
          = (st, LoginResp.err 401 "Credenciales inválidas")) ∧
      (cmp password u.password = true →
        authLogin st cmp email password token
          = (st, LoginResp.ok (toPublic u) token))) := by
  have hm : ¬ (email = "" ∨ password = "") := by
    intro h
    rcases h with h | h
    · exact he h
    · exact hp h
  refine ⟨?_, ?_⟩
  · intro hnone
    unfold authLogin
    rw [if_neg hm]
    simp only [hnone]
  · intro u hu
    constructor
    · intro hc
      unfold authLogin
      rw [if_neg hm]
      simp only [hu, hc, Bool.false_eq_true, if_false]
    · intro hc
      unfold authLogin
      rw [if_neg hm]
      simp only [hu, hc, if_true]

/-- C6 (witness): a login with an unknown email gets exactly the
generic 401. -/
theorem C6_login_indistinguishable_witness :
    ("ghost@mail" ≠ "") ∧ ("pw" ≠ "") ∧
    demoSt.users.find? (fun u => u.email == "ghost@mail") = none ∧
    authLogin demoSt (fun a b => a == b) "ghost@mail" "pw" "t"
      = (demoSt, LoginResp.err 401 "Credenciales inválidas") :=
  ⟨by decide, by decide, by decide,
   (C6_login_indistinguishable demoSt (fun a b => a == b) "ghost@mail" "pw" "t"
      (by decide) (by decide)).1 (by decide)⟩


/-! ### C7: DELETE /users/:id -/

/-- `splice` at the first matching index removes exactly that record:
the users list splits as prefix (no match) ++ matched user ++ suffix,
and erasing leaves prefix ++ suffix. -/
theorem eraseFirstUser_decomp (us : List User) (uid : Int)
    (hex : ∃ u ∈ us, u.id = uid) :
    ∃ l1 u l2, us = l1 ++ u :: l2 ∧ u.id = uid ∧ (∀ v ∈ l1, v.id ≠ uid) ∧
      eraseFirstUser us uid = l1 ++ l2 := by
  induction us with
  | nil => simp at hex
  | cons hd tl ih =>
    by_cases hb : (hd.id == uid) = true
    · refine ⟨[], hd, tl, by simp, by simpa using hb, by simp, ?_⟩
      simp [eraseFirstUser, hb]
    · have hb2 : (hd.id == uid) = false := by simpa using hb
      have hex' : ∃ u ∈ tl, u.id = uid := by
        rcases hex with ⟨u, hu, hui⟩
        rcases List.mem_cons.1 hu with h | h
        · subst h
          rw [hui] at hb2
          simp at hb2
        · exact ⟨u, h, hui⟩
      obtain ⟨l1, u, l2, hsplit, hui, hl1, her⟩ := ih hex'
      refine ⟨hd :: l1, u, l2, by simp [hsplit], hui, ?_, ?_⟩
      · intro v hv
        rcases List.mem_cons.1 hv with h | h
        · subst h
          simpa using hb2
        · exact hl1 v h
      · simp [eraseFirstUser, hb2, her]

/-- `find` returns the matched user of the first-match decomposition. -/
theorem find?_first_match (l1 : List User) (u : User) (l2 : List User)
    (uid : Int) (hl1 : ∀ v ∈ l1, v.id ≠ uid) (hu : u.id = uid) :
    (l1 ++ u :: l2).find? (fun x => x.id == uid) = some u := by
  induction l1 with
  | nil => simp [List.find?_cons, hu]
  | cons a l ih =>
    have hb : (a.id == uid) = false := by
      simpa using hl1 a (by simp)
    simp only [List.cons_append, List.find?_cons, hb]
    exact ih (fun v hv => hl1 v (by simp [hv]))

/-- C7: deleting a user fails with 400 and changes nothing when a sale
references the id; answers 404 and changes nothing when no user has the
id; and otherwise removes exactly the first user with that id, leaving
every other user record in place. -/
theorem C7_delete_user (st : St) (uid : Int) :
    ((∃ s ∈ st.sales, s.userId = uid) →
      deleteUser st uid
        = (st, DeleteResp.err 400
            "No se puede eliminar el usuario con ventas registradas")) ∧
    ((∀ s ∈ st.sales, s.userId ≠ uid) → (∀ u ∈ st.users, u.id ≠ uid) →
      deleteUser st uid = (st, DeleteResp.err 404 "Usuario no encontrado")) ∧
    ((∀ s ∈ st.sales, s.userId ≠ uid) → (∃ u ∈ st.users, u.id = uid) →
      ∃ l1 u l2, st.users = l1 ++ u :: l2 ∧ u.id = uid ∧
        (∀ v ∈ l1, v.id ≠ uid) ∧
        (deleteUser st uid).1 = { st with users := l1 ++ l2 } ∧
        (deleteUser st uid).2 = DeleteResp.ok "Usuario eliminado correctamente") := by
  have hfilter : ∀ (hno : ∀ s ∈ st.sales, s.userId ≠ uid),
      ¬ ((st.sales.filter (fun s => s.userId == uid)).length > 0) := by
    intro hno hpos
    obtain ⟨a, ha⟩ := List.length_pos_iff_exists_mem.1 hpos
    have hmf := List.mem_filter.1 ha
    exact hno a hmf.1 (by simpa using hmf.2)
  refine ⟨?_, ?_, ?_⟩
  · rintro ⟨s, hs, hsu⟩
    have hpos : (st.sales.filter (fun x => x.userId == uid)).length > 0 := by
      apply List.length_pos_iff_exists_mem.2
      exact ⟨s, List.mem_filter.2 ⟨hs, by simp [hsu]⟩⟩
    unfold deleteUser
    rw [if_pos hpos]
  · intro hno hnou
    have hnone : st.users.find? (fun u => u.id == uid) = none :=
      List.find?_eq_none.2 (fun x hx => by simpa using hnou x hx)
    unfold deleteUser
    rw [if_neg (hfilter hno)]
    simp only [hnone]
  · intro hno hex
    obtain ⟨l1, u, l2, hsplit, hui, hl1, her⟩ := eraseFirstUser_decomp st.users uid hex
    have hfind : st.users.find? (fun x => x.id == uid) = some u := by
      rw [hsplit]
      exact find?_first_match l1 u l2 uid hl1 hui
    have hco : deleteUser st uid
        = ({ st with users := eraseFirstUser st.users uid },
           DeleteResp.ok "Usuario eliminado correctamente") := by
      unfold deleteUser
      rw [if_neg (hfilter hno)]
      simp only [hfind]
    refine ⟨l1, u, l2, hsplit, hui, hl1, ?_, by rw [hco]⟩
    rw [hco]
    simp only [her]

/-- C7 (witness): Bob has no sales in the demo state, so deleting id 7
removes exactly his record. -/
theorem C7_delete_user_witness :
    (∀ s ∈ demoSt.sales, s.userId ≠ (7 : Int)) ∧
    (∃ u ∈ demoSt.users, u.id = (7 : Int)) ∧
    (∃ l1 u l2, demoSt.users = l1 ++ u :: l2 ∧ u.id = 7 ∧
      (∀ v ∈ l1, v.id ≠ 7) ∧
      (deleteUser demoSt 7).1 = { demoSt with users := l1 ++ l2 } ∧
      (deleteUser demoSt 7).2 = DeleteResp.ok "Usuario eliminado correctamente") :=
  ⟨by decide, by decide, (C7_delete_user demoSt 7).2.2 (by decide) (by decide)⟩


/-! ### C8: responses never carry the password field -/

/-- C8: the successful responses of registration, login and profile
read return the user as a `PublicUser` — a record type with no password
field, built by `toPublic`, which copies every other field — while the
stored record keeps its password: registration stores the bcrypt hash
`hashFn password`, and login and the profile read leave the state (and
hence the stored hashed password) untouched. -/
theorem C8_password_stripped (st : St) (hashFn : String → String)
    (cmp : String → String → Bool)
    (name email password phone address token : String) (uid : Int) :
    ((name ≠ "" ∧ email ≠ "" ∧ password ≠ "") →
      st.users.find? (fun u => u.email == email) = none →
      authRegister st hashFn name email password phone address token
        = ({ st with users := st.users
              ++ [newUserOf st hashFn name email password phone address] },
           RegResp.created
             (toPublic (newUserOf st hashFn name email password phone address))
             token) ∧
      (newUserOf st hashFn name email password phone address).password
        = hashFn password) ∧
    (∀ u, st.users.find? (fun u2 => u2.email == email) = some u →
      email ≠ "" → password ≠ "" → cmp password u.password = true →
      authLogin st cmp email password token
        = (st, LoginResp.ok (toPublic u) token)) ∧
    (∀ u, st.users.find? (fun u2 => u2.id == uid) = some u →
      getProfile st uid = (st, ProfileResp.ok (toPublic u))) ∧
    (∀ u : User, (toPublic u).id = u.id ∧ (toPublic u).name = u.name ∧
      (toPublic u).email = u.email ∧ (toPublic u).phone = u.phone ∧
      (toPublic u).address = u.address ∧ (toPublic u).role = u.role) := by
  refine ⟨?_, ?_, ?_, ?_⟩
  · rintro ⟨hn, he, hp⟩ hnone
    have hm : ¬ (name = "" ∨ email = "" ∨ password = "") := by
      intro h
      rcases h with h | h | h
      · exact hn h
      · exact he h
      · exact hp h
    constructor
    · unfold authRegister
      rw [if_neg hm]
      simp only [hnone]
    · rfl
  · intro u hu he hp hc
    have hm : ¬ (email = "" ∨ password = "") := by
      intro h
      rcases h with h | h
      · exact he h
      · exact hp h
    unfold authLogin
    rw [if_neg hm]
    simp only [hu, hc, if_true]
  · intro u hu
    unfold getProfile
    simp only [hu]
  · intro u
    exact ⟨rfl, rfl, rfl, rfl, rfl, rfl⟩

/-- C8 (witness): registering Eve against the demo state. -/
theorem C8_password_stripped_witness :
    (("Eve" ≠ "" ∧ "eve@mail" ≠ "" ∧ "pw" ≠ "") ∧
      demoSt.users.find? (fun u => u.email == "eve@mail") = none) ∧
    (authRegister demoSt (fun s => s ++ "#") "Eve" "eve@mail" "pw" "" "" "t"
      = ({ demoSt with users := demoSt.users
            ++ [newUserOf demoSt (fun s => s ++ "#") "Eve" "eve@mail" "pw" "" ""] },
         RegResp.created
           (toPublic (newUserOf demoSt (fun s => s ++ "#") "Eve" "eve@mail" "pw" "" ""))
           "t") ∧
     (newUserOf demoSt (fun s => s ++ "#") "Eve" "eve@mail" "pw" "" "").password
       = (fun s => s ++ "#") "pw") :=
  ⟨⟨⟨by decide, by decide, by decide⟩, by decide⟩,
   (C8_password_stripped demoSt (fun s => s ++ "#") (fun a b => a == b)
      "Eve" "eve@mail" "pw" "" "" "t" 7).1 ⟨by decide, by decide, by decide⟩
      (by decide)⟩

/-! ### C9: GET /categories and read-only catalog endpoints -/

theorem mem_foldl_insertUniq (cs : List String) (acc : List String)
    (c : String) : c ∈ cs.foldl insertUniq acc ↔ c ∈ acc ∨ c ∈ cs := by
  induction cs generalizing acc with
  | nil => simp
  | cons a l ih =>
    simp only [List.foldl_cons, ih]
    unfold insertUniq
    by_cases hac : a ∈ acc
    · rw [if_pos hac]
      constructor
      · rintro (h | h)
        · exact Or.inl h
        · exact Or.inr (by simp [h])
      · rintro (h | h)
        · exact Or.inl h
        · rcases List.mem_cons.1 h with h | h
          · subst h
            exact Or.inl hac
          · exact Or.inr h
    · rw [if_neg hac]
      simp only [List.mem_append, List.mem_singleton, List.mem_cons]
      tauto

theorem nodup_foldl_insertUniq (cs : List String) (acc : List String)
    (hnd : acc.Nodup) : (cs.foldl insertUniq acc).Nodup := by
  induction cs generalizing acc with
  | nil => simpa using hnd
  | cons a l ih =>
    simp only [List.foldl_cons]
    apply ih
    unfold insertUniq
    by_cases hac : a ∈ acc
    · rw [if_pos hac]
      exact hnd
    · rw [if_neg hac]
      simp [List.nodup_append, hnd, hac]

/-- C9: `GET /categories` returns each category value occurring among
the products exactly once (no duplicates, and membership is exactly
"some product has this category"), and the three catalog read handlers
return the state unchanged. -/
theorem C9_categories (st : St) (pid : Int) :
    (getProducts st).1 = st ∧ (getProduct st pid).1 = st ∧
    (getCategories st).1 = st ∧
    ((getCategories st).2).Nodup ∧
    (∀ c, c ∈ (getCategories st).2 ↔ ∃ p ∈ st.products, p.category = c) := by
  refine ⟨rfl, ?_, rfl, ?_, ?_⟩
  · unfold getProduct
    cases st.products.find? (fun p => p.id == pid) with
    | none => rfl
    | some p => rfl
  · show (categoriesOf st.products).Nodup
    exact nodup_foldl_insertUniq _ [] (by simp)
  · intro c
    show c ∈ categoriesOf st.products ↔ _
    unfold categoriesOf
    rw [mem_foldl_insertUniq]
    simp [List.mem_map]


/-! ### C10: PUT /auth/profile frame conditions -/

/-- In-place profile update rewrites exactly the first user with the
authenticated id, applying `applyProfileUpdate`. -/
theorem updateUsersProfile_decomp (us : List User) (uid : Int)
    (name phone address : String) (hex : ∃ u ∈ us, u.id = uid) :
    ∃ l1 u l2, us = l1 ++ u :: l2 ∧ u.id = uid ∧ (∀ v ∈ l1, v.id ≠ uid) ∧
      updateUsersProfile us uid name phone address
        = l1 ++ applyProfileUpdate u name phone address :: l2 := by
  induction us with
  | nil => simp at hex
  | cons hd tl ih =>
    by_cases hb : (hd.id == uid) = true
    · refine ⟨[], hd, tl, by simp, by simpa using hb, by simp, ?_⟩
      simp [updateUsersProfile, hb]
    · have hb2 : (hd.id == uid) = false := by simpa using hb
      have hex' : ∃ u ∈ tl, u.id = uid := by
        rcases hex with ⟨u, hu, hui⟩
        rcases List.mem_cons.1 hu with h | h
        · subst h
          rw [hui] at hb2
          simp at hb2
        · exact ⟨u, h, hui⟩
      obtain ⟨l1, u, l2, hsplit, hui, hl1, her⟩ := ih hex'
      refine ⟨hd :: l1, u, l2, by simp [hsplit], hui, ?_, ?_⟩
      · intro v hv
        rcases List.mem_cons.1 hv with h | h
        · subst h
          simpa using hb2
        · exact hl1 v h
      · simp [updateUsersProfile, hb2, her]

/-- C10: the profile update answers 404 and changes nothing when the
authenticated id resolves to no user; otherwise it rewrites exactly the
first user with that id — every user before it (and, by the split,
after it) is untouched — and on that record only the name, phone and
address fields, each only when the submitted value is truthy
(non-empty), while id, email, password and role are never modified. -/
theorem C10_profile_update (st : St) (uid : Int)
    (name phone address : String) :
    ((∀ u ∈ st.users, u.id ≠ uid) →
      updateProfile st uid name phone address
        = (st, ProfileResp.err 404 "Usuario no encontrado")) ∧
    ((∃ u ∈ st.users, u.id = uid) →
      ∃ l1 u l2, st.users = l1 ++ u :: l2 ∧ u.id = uid ∧
        (∀ v ∈ l1, v.id ≠ uid) ∧
        updateProfile st uid name phone address
          = ({ st with users :=
                 l1 ++ applyProfileUpdate u name phone address :: l2 },
             ProfileResp.ok (toPublic (applyProfileUpdate u name phone address))) ∧
        (applyProfileUpdate u name phone address).id = u.id ∧
        (applyProfileUpdate u name phone address).email = u.email ∧
        (applyProfileUpdate u name phone address).password = u.password ∧
        (applyProfileUpdate u name phone address).role = u.role ∧
        (applyProfileUpdate u name phone address).name
          = (if name ≠ "" then name else u.name) ∧
        (applyProfileUpdate u name phone address).phone
          = (if phone ≠ "" then phone else u.phone) ∧
        (applyProfileUpdate u name phone address).address
          = (if address ≠ "" then address else u.address)) := by
  constructor
  · intro hnou
    have hnone : st.users.find? (fun u => u.id == uid) = none :=
      List.find?_eq_none.2 (fun x hx => by simpa using hnou x hx)
    unfold updateProfile
    simp only [hnone]
  · intro hex
    obtain ⟨l1, u, l2, hsplit, hui, hl1, her⟩ :=
      updateUsersProfile_decomp st.users uid name phone address hex
    have hfind : st.users.find? (fun x => x.id == uid) = some u := by
      rw [hsplit]
      exact find?_first_match l1 u l2 uid hl1 hui
    have hco : updateProfile st uid name phone address
        = ({ st with users := updateUsersProfile st.users uid name phone address },
           ProfileResp.ok (toPublic (applyProfileUpdate u name phone address))) := by
      unfold updateProfile
      simp only [hfind]
    refine ⟨l1, u, l2, hsplit, hui, hl1, ?_, rfl, rfl, rfl, rfl, rfl, rfl, rfl⟩
    rw [hco, her]

/-- C10 (witness): updating Bob's profile with a new name and address
but an empty phone. -/
theorem C10_profile_update_witness :
    (∃ u ∈ demoSt.users, u.id = (7 : Int)) ∧
    (∃ l1 u l2, demoSt.users = l1 ++ u :: l2 ∧ u.id = 7 ∧
      (∀ v ∈ l1, v.id ≠ 7) ∧
      updateProfile demoSt 7 "Robert" "" "Main St"
        = ({ demoSt with users :=
               l1 ++ applyProfileUpdate u "Robert" "" "Main St" :: l2 },
           ProfileResp.ok (toPublic (applyProfileUpdate u "Robert" "" "Main St"))) ∧
      (applyProfileUpdate u "Robert" "" "Main St").id = u.id ∧
      (applyProfileUpdate u "Robert" "" "Main St").email = u.email ∧
      (applyProfileUpdate u "Robert" "" "Main St").password = u.password ∧
      (applyProfileUpdate u "Robert" "" "Main St").role = u.role ∧
      (applyProfileUpdate u "Robert" "" "Main St").name
        = (if "Robert" ≠ "" then "Robert" else u.name) ∧
      (applyProfileUpdate u "Robert" "" "Main St").phone
        = (if "" ≠ "" then "" else u.phone) ∧
      (applyProfileUpdate u "Robert" "" "Main St").address
        = (if "Main St" ≠ "" then "Main St" else u.address)) :=
  ⟨by decide, (C10_profile_update demoSt 7 "Robert" "" "Main St").2 (by decide)⟩

end TPAW
